import Mathlib

/-!
Verification of the entity/component simulation core of a tile-grid arcade
game (Rust sources: `src/math.rs`, `src/time.rs`, `src/entity.rs`).

Modelling conventions:
* `f32` scalars are modelled as exact rationals (`ℚ`); the operations the
  claims depend on (`floor`, subtraction, comparison against the 0.01
  tolerance) are exact at the grid scales the game uses.
* `std::time::Duration` is a non-negative nanosecond count, modelled as `ℕ`.
  `Duration::saturating_sub` is truncated subtraction on `ℕ`.
* `HashMap<EntityId, T>` component storages are modelled as association
  lists with HashMap semantics (`insert` overwrites the value of an existing
  key, `remove` deletes the key, iteration visits each stored entry once).
* `mpsc` channels are single-threaded FIFO queues held in the state; a
  `while let Ok(x) = rx.try_recv()` drain loop is modelled with an explicit
  fuel argument because the source loop may process entries that are pushed
  while it runs (and may therefore run unboundedly).
-/

set_option maxHeartbeats 1000000

namespace Game

/-! ## `math.rs` -/

/-- `f32_eq_tolerance` from `math.rs`: `-tolerance < lhs - rhs && lhs - rhs < tolerance`. -/
def f32_eq_tolerance (lhs rhs tolerance : ℚ) : Bool :=
  (-tolerance < lhs - rhs) && (lhs - rhs < tolerance)

/-- `f32_eq` from `math.rs`: tolerance-0.01 equality of scalars. -/
def f32_eq (lhs rhs : ℚ) : Bool :=
  f32_eq_tolerance lhs rhs (1 / 100)

/-- `Vec2` from `math.rs`. -/
structure Vec2 where
  x : ℚ
  y : ℚ
deriving DecidableEq

/-- `Vec3` from `math.rs`. -/
structure Vec3 where
  x : ℚ
  y : ℚ
  z : ℚ
deriving DecidableEq

/-- `Vec2::eq` from `math.rs`: componentwise `f32_eq`. -/
def Vec2.eq (v rhs : Vec2) : Bool :=
  f32_eq v.x rhs.x && f32_eq v.y rhs.y

/-- `Vec2::floor` from `math.rs`: componentwise `f32::floor`. -/
def Vec2.floor (v : Vec2) : Vec2 :=
  ⟨(⌊v.x⌋ : ℚ), (⌊v.y⌋ : ℚ)⟩

/-- `impl From<Vec3> for Vec2` from `math.rs`: drop the `z` coordinate. -/
def Vec2.ofVec3 (v : Vec3) : Vec2 :=
  ⟨v.x, v.y⟩

/-! ## `time.rs` -/

/-- `Threshold` from `time.rs` (the `Timer` component): accumulator plus
threshold, both `Duration`s (nanoseconds, modelled as `ℕ`). -/
structure Threshold where
  acc : ℕ
  threshold : ℕ
deriving DecidableEq

/-- `Threshold::default()`: zero accumulator, zero threshold. -/
def Threshold.defaultVal : Threshold :=
  ⟨0, 0⟩

/-- `Threshold::new(threshold)` from `time.rs`. -/
def Threshold.new (threshold : ℕ) : Threshold :=
  { Threshold.defaultVal with threshold := threshold }

/-- `Threshold::tick(dt)` from `time.rs`:
`self.acc += dt; if self.acc > self.threshold { self.acc -= self.threshold; true } else { false }`. -/
def Threshold.tick (t : Threshold) (dt : ℕ) : Threshold × Bool :=
  let acc := t.acc + dt
  if t.threshold < acc then
    ({ t with acc := acc - t.threshold }, true)
  else
    ({ t with acc := acc }, false)

/-- Iterate `Threshold::tick` `n` times with a fixed `dt`, counting how many
of the calls returned `true` (fired). -/
def Threshold.tickN (t : Threshold) (dt : ℕ) : ℕ → Threshold × ℕ
  | 0 => (t, 0)
  | n + 1 =>
    let r := Threshold.tickN t dt n
    let s := r.1.tick dt
    (s.1, r.2 + if s.2 then 1 else 0)

/-- Whether the `n`-th call (1-indexed) of a fixed-`dt` tick sequence on a
fresh `Threshold::new T` timer fires. -/
def firedAt (T dt n : ℕ) : Bool :=
  (((Threshold.new T).tickN dt (n - 1)).1.tick dt).2

/-- The spec's reading of "fires exactly once every `c` ticks": any two
consecutive fires of the fixed-`dt` sequence are exactly `c` calls apart. -/
def firesOnceEvery (T dt c : ℕ) : Prop :=
  ∀ m n : ℕ, 0 < m → m < n → firedAt T dt m = true → firedAt T dt n = true →
    (∀ k, m < k → k < n → firedAt T dt k = false) → n - m = c

/-- `Cooldown` from `time.rs`. -/
structure Cooldown where
  acc : ℕ
  cooldown : ℕ
deriving DecidableEq

/-- `Cooldown::tick(dt)` from `time.rs`: `self.acc = self.acc.saturating_sub(dt)`. -/
def Cooldown.tick (c : Cooldown) (dt : ℕ) : Cooldown :=
  { c with acc := c.acc - dt }

/-- `Cooldown::is_cooling_down()` from `time.rs`: `!self.acc.is_zero()`. -/
def Cooldown.is_cooling_down (c : Cooldown) : Bool :=
  !(c.acc == 0)

/-- `Cooldown::cool_down()` from `time.rs`: `self.acc = self.cooldown`. -/
def Cooldown.cool_down (c : Cooldown) : Cooldown :=
  { c with acc := c.cooldown }

/-- Iterate `Cooldown::tick` over a list of `dt`s. -/
def Cooldown.tickSeq (c : Cooldown) : List ℕ → Cooldown
  | [] => c
  | d :: ds => Cooldown.tickSeq (c.tick d) ds

/-! ## `entity.rs`: enums and component values -/

/-- The `Entities` archetype tag enum from `entity.rs`. -/
inductive Entities where
  | Basic
  | Background
  | Wall
  | SnakeHead
  | SnakeBody
  | Fruit
  | _Enemy
  | Fireball
  | Trigger
  | Swoop
  | Text
  | Logic
deriving DecidableEq

/-- The `Components` enum from `entity.rs`. -/
inductive Components where
  | Position
  | Direction
  | Collider
  | Input
  | BodyLength
  | SelfDestruct
  | Scale
  | Timer
  | Spawner
  | Animation
  | Color
  | Speed
  | Properties
  | Sound
deriving DecidableEq

/-- The `Direction` component enum from `entity.rs`. -/
inductive Direction where
  | None
  | Up
  | Down
  | Left
  | Right
  | Raw (v : Vec2)
deriving DecidableEq

/-- The `Animation` component enum from `entity.rs`. -/
inductive Animation where
  | Idle
  | _Growing
deriving DecidableEq

/-- `PaletteKey` from `palette.rs` (the `Color` component). -/
inductive PaletteKey where
  | None
  | Snake
  | _Wall
  | _Background
  | _Fruit
deriving DecidableEq

/-- The `Input` component from `entity.rs`: its internal key-event channel is
a FIFO queue of key codes (`glfw::Key` modelled as `ℕ`) plus the latest
mouse position. -/
structure Input where
  keys : List ℕ
  mouse_pos : Vec2
deriving DecidableEq

/-- `Input::default()`: empty key queue, origin mouse position. -/
def Input.defaultVal : Input :=
  ⟨[], ⟨0, 0⟩⟩

/-- `Input::press(key)` from `entity.rs`: send the key into the queue. -/
def Input.press (i : Input) (key : ℕ) : Input :=
  { i with keys := i.keys ++ [key] }

/-- `Input::mouse_move(pos)` from `entity.rs`. -/
def Input.mouse_move (i : Input) (pos : Vec2) : Input :=
  { i with mouse_pos := pos }

/-- A spawn request (`EntityManagerRequest = Box<dyn FnOnce(&mut EntityManager)>`
in `entity.rs`). Requests are opaque closures in the source; the model
defunctionalizes them into the operations such a closure can perform against
`&mut EntityManager`: spawn an entity, kill an entity, send a further request
into the spawn channel (as `EntityView::request_spawn` does), or a sequence
of those. -/
inductive Req where
  | spawn (tag : Entities) (comps : List Components)
  | kill (id : ℕ)
  | enqueue (r : Req)
  | seq (r1 r2 : Req)
deriving DecidableEq

/-! ## `entity.rs`: component storages -/

/-- `Storage<T> = HashMap<EntityId, T>`, modelled as an association list with
unique keys. -/
abbrev Storage (α : Type) : Type := List (ℕ × α)

/-- `HashMap::get`: the value stored under key `k`. -/
def Storage.get {α : Type} : Storage α → ℕ → Option α
  | [], _ => none
  | kv :: rest, k => if kv.1 = k then some kv.2 else Storage.get rest k

/-- `HashMap::insert`: overwrite the value of an existing key, otherwise add
the entry. -/
def Storage.insert {α : Type} : Storage α → ℕ → α → Storage α
  | [], k, v => [(k, v)]
  | kv :: rest, k, v =>
    if kv.1 = k then (k, v) :: rest else kv :: Storage.insert rest k v

/-- `HashMap::remove` (ignoring the returned value). -/
def Storage.remove {α : Type} (s : Storage α) (k : ℕ) : Storage α :=
  s.filter (fun kv => kv.1 != k)

/-- `HashMap::contains_key`. -/
def Storage.containsKey {α : Type} (s : Storage α) (k : ℕ) : Bool :=
  (Storage.get s k).isSome

/-- The keys of a storage are pairwise distinct (HashMap invariant). -/
def Storage.keysNodup {α : Type} (s : Storage α) : Prop :=
  (s.map Prod.fst).Nodup

/-- The property bag of one entity (`Properties = HashMap<&str, Rc<RefCell<dyn Any>>>`).
The values are type-erased in the source; the model keeps only the bound names. -/
abbrev PropBag : Type := List String

/-- The `Storages` struct from `entity.rs`: one table per component kind,
plus the sending ends of the spawn-request, collision and kill channels.
(The `dying` channel's sender is held by entity views in the source; all
three channels are single-threaded FIFO queues here.) -/
structure Storages where
  spawnQ : List Req
  collQ : List (ℕ × ℕ)
  killQ : List ℕ
  positions : Storage Vec3
  directions : Storage Direction
  colliders : Storage Unit
  keyboards : Storage Input
  body_lengths : Storage Int
  self_destructs : Storage Int
  scales : Storage Vec2
  timers : Storage Threshold
  spawners : Storage Unit
  animations : Storage Animation
  colors : Storage PaletteKey
  speeds : Storage ℚ
  properties : Storage PropBag
  sounds : Storage Unit
deriving DecidableEq

/-- `Storages::new(..)`: all tables empty, all queues empty. -/
def Storages.new : Storages :=
  ⟨[], [], [], [], [], [], [], [], [], [], [], [], [], [], [], [], []⟩

/-- `Storages::kill(entity)` from `entity.rs`: remove the entity's entry from
every component table (absent entries are a no-op). -/
def Storages.kill (s : Storages) (entity : ℕ) : Storages :=
  { s with
    positions := s.positions.remove entity
    directions := s.directions.remove entity
    colliders := s.colliders.remove entity
    keyboards := s.keyboards.remove entity
    body_lengths := s.body_lengths.remove entity
    self_destructs := s.self_destructs.remove entity
    scales := s.scales.remove entity
    timers := s.timers.remove entity
    spawners := s.spawners.remove entity
    animations := s.animations.remove entity
    colors := s.colors.remove entity
    speeds := s.speeds.remove entity
    properties := s.properties.remove entity
    sounds := s.sounds.remove entity }

/-- `Storages::is_collider(id)` from `entity.rs`. -/
def Storages.is_collider (s : Storages) (id : ℕ) : Bool :=
  s.colliders.containsKey id

/-- The collision events produced by the scan inside `Storages::set_position`:
for each entry `(other, other_pos)` of the positions table (the table as it
stands, i.e. before the new value is committed), skip non-colliders, then
compare the grid-floor-quantized 2D positions with the tolerance equality
`Vec2::eq`; each coincidence sends `(entity, other)` on the collision channel. -/
def Storages.scanEvents (s : Storages) (entity : ℕ) (position : Vec3) : List (ℕ × ℕ) :=
  s.positions.filterMap fun other =>
    if s.is_collider other.1 && (Vec2.ofVec3 position).floor.eq (Vec2.ofVec3 other.2).floor
    then some (entity, other.1)
    else none

/-- `Storages::set_position(entity, position)` from `entity.rs`: if the moved
entity is a collider, first run the pairwise scan over the stored positions
(enqueueing one collision event per coincidence), and only then insert the
new value into the positions table. -/
def Storages.set_position (s : Storages) (entity : ℕ) (position : Vec3) : Storages :=
  let s1 :=
    if s.is_collider entity then
      { s with collQ := s.collQ ++ s.scanEvents entity position }
    else s
  { s1 with positions := s1.positions.insert entity position }

/-- `Storages::set_direction` from `entity.rs`. -/
def Storages.set_direction (s : Storages) (entity : ℕ) (direction : Direction) : Storages :=
  { s with directions := s.directions.insert entity direction }

/-- `Storages::add_collider` from `entity.rs`. -/
def Storages.add_collider (s : Storages) (entity : ℕ) : Storages :=
  { s with colliders := s.colliders.insert entity () }

/-- `Storages::add_keyboard` from `entity.rs`. -/
def Storages.add_keyboard (s : Storages) (entity : ℕ) : Storages :=
  { s with keyboards := s.keyboards.insert entity Input.defaultVal }

/-- `Storages::key_pressed(key)` from `entity.rs`: fan the key out to every
entity holding the Input component. -/
def Storages.key_pressed (s : Storages) (key : ℕ) : Storages :=
  { s with keyboards := s.keyboards.map (fun kv => (kv.1, kv.2.press key)) }

/-- `Storages::mouse_moved(mouse)` from `entity.rs`. -/
def Storages.mouse_moved (s : Storages) (mouse : Vec2) : Storages :=
  { s with keyboards := s.keyboards.map (fun kv => (kv.1, kv.2.mouse_move mouse)) }

/-- `Storages::set_body_length` from `entity.rs`. -/
def Storages.set_body_length (s : Storages) (entity : ℕ) (body_length : Int) : Storages :=
  { s with body_lengths := s.body_lengths.insert entity body_length }

/-- `Storages::set_self_destruct` from `entity.rs`. -/
def Storages.set_self_destruct (s : Storages) (entity : ℕ) (self_destruct : Int) : Storages :=
  { s with self_destructs := s.self_destructs.insert entity self_destruct }

/-- `Storages::set_scale` from `entity.rs`. -/
def Storages.set_scale (s : Storages) (entity : ℕ) (scale : Vec2) : Storages :=
  { s with scales := s.scales.insert entity scale }

/-- `Storages::set_animation` from `entity.rs`. -/
def Storages.set_animation (s : Storages) (entity : ℕ) (animation : Animation) : Storages :=
  { s with animations := s.animations.insert entity animation }

/-- `Storages::set_color` from `entity.rs`. -/
def Storages.set_color (s : Storages) (entity : ℕ) (color : PaletteKey) : Storages :=
  { s with colors := s.colors.insert entity color }

/-- `Storages::set_speed` from `entity.rs`. -/
def Storages.set_speed (s : Storages) (entity : ℕ) (speed : ℚ) : Storages :=
  { s with speeds := s.speeds.insert entity speed }

/-- `Storages::add_component(entity, component)` from `entity.rs`: initialize
the kind's default into its table (`Scale::diagonal(1.0)` for Scale, zeroes
and default enum values elsewhere; the Sound table stores a clone of the
shared player handle, modelled as `()`). -/
def Storages.add_component (s : Storages) (entity : ℕ) (c : Components) : Storages :=
  match c with
  | Components.Position => s.set_position entity ⟨0, 0, 0⟩
  | Components.Direction => s.set_direction entity Direction.None
  | Components.Collider => s.add_collider entity
  | Components.Input => s.add_keyboard entity
  | Components.BodyLength => s.set_body_length entity 0
  | Components.SelfDestruct => s.set_self_destruct entity 0
  | Components.Scale => s.set_scale entity ⟨1, 1⟩
  | Components.Timer => { s with timers := s.timers.insert entity Threshold.defaultVal }
  | Components.Spawner => { s with spawners := s.spawners.insert entity () }
  | Components.Animation => s.set_animation entity Animation.Idle
  | Components.Color => s.set_color entity PaletteKey.None
  | Components.Speed => s.set_speed entity 0
  | Components.Properties => { s with properties := s.properties.insert entity [] }
  | Components.Sound => { s with sounds := s.sounds.insert entity () }

/-- Holds when entity `e` has no entry in any component table of `s`. -/
def Storages.noEntries (s : Storages) (e : ℕ) : Prop :=
  s.positions.get e = none ∧ s.directions.get e = none ∧
  s.colliders.get e = none ∧ s.keyboards.get e = none ∧
  s.body_lengths.get e = none ∧ s.self_destructs.get e = none ∧
  s.scales.get e = none ∧ s.timers.get e = none ∧
  s.spawners.get e = none ∧ s.animations.get e = none ∧
  s.colors.get e = none ∧ s.speeds.get e = none ∧
  s.properties.get e = none ∧ s.sounds.get e = none

/-! ## `entity.rs`: the entity manager -/

/-- One step of `slice::binary_search` from the Rust standard library over the
(ascending) directory: search for `x` in `l` within the half-open index range
`[left, right)`. Returns `Ok(mid)` on a hit and `Err(left)` once the range is
empty. -/
def bsGo (l : List ℕ) (x : ℕ) (left right : ℕ) : Except ℕ ℕ :=
  if h : left < right then
    let mid := left + (right - left) / 2
    let v := l.getD mid 0
    if v < x then
      bsGo l x (mid + 1) right
    else if x < v then
      bsGo l x left mid
    else
      Except.ok mid
  else
    Except.error left
termination_by right - left
decreasing_by
  all_goals omega

/-- `Vec::binary_search(&x)`: full-range binary search. -/
def binarySearch (l : List ℕ) (x : ℕ) : Except ℕ ℕ :=
  bsGo l x 0 l.length

/-- The `EntityManager` struct from `entity.rs`. `tracker` is the next id to
allocate; `entities`/`types` are the parallel directory vectors; the
pending-input lists are the receiving ends of the keystroke and mouse
channels; the spawn/collision/kill channels live inside `storage`. -/
structure EntityManager where
  tracker : ℕ
  entities : List ℕ
  types : List Entities
  pendingKeys : List ℕ
  pendingMouse : List Vec2
  storage : Storages
deriving DecidableEq

/-- `EntityManager::new(..)`: fresh tracker, empty directory, empty queues. -/
def EntityManager.new : EntityManager :=
  ⟨0, [], [], [], [], Storages.new⟩

/-- `EntityManager::spawn(type_, components)` from `entity.rs`: allocate the
next id, append it (and its tag) to the directory, initialize each requested
component, and return the id. -/
def EntityManager.spawn (m : EntityManager) (type_ : Entities) (components : List Components) :
    EntityManager × ℕ :=
  let id := m.tracker
  let m1 := { m with
    tracker := m.tracker + 1
    entities := m.entities ++ [id]
    types := m.types ++ [type_] }
  let st := components.foldl (fun st c => st.add_component id c) m1.storage
  ({ m1 with storage := st }, id)

/-- `EntityManager::kill(entity)` from `entity.rs`: binary-search the
directory; on a hit remove the directory entry, the tag, and every component
storage entry; on a miss do nothing. -/
def EntityManager.kill (m : EntityManager) (entity : ℕ) : EntityManager :=
  match binarySearch m.entities entity with
  | Except.ok index =>
    { m with
      entities := m.entities.eraseIdx index
      types := m.types.eraseIdx index
      storage := m.storage.kill entity }
  | Except.error _ => m

/-- `EntityManager::view(entity)` from `entity.rs`: binary-search the
directory and pair the id with its archetype tag (the data an `EntityView`
is constructed from); `none` for unknown or already-killed ids. -/
def EntityManager.view (m : EntityManager) (entity : ℕ) : Option (ℕ × Entities) :=
  match binarySearch m.entities entity with
  | Except.ok index => (m.types.get? index).map (fun t => (entity, t))
  | Except.error _ => none

/-- Run one spawn request with full mutable access to the manager
(`spawn_request(self)` in the drain loop). -/
def runReq : Req → EntityManager → EntityManager
  | Req.spawn tag comps, m => (m.spawn tag comps).1
  | Req.kill id, m => m.kill id
  | Req.enqueue r, m =>
    { m with storage := { m.storage with spawnQ := m.storage.spawnQ ++ [r] } }
  | Req.seq r1 r2, m => runReq r2 (runReq r1 m)

/-- An archetype tick behavior (`Entities::tick` dispatch target, external to
the core): given the tag, `dt`, and the entity id, it may do anything an
`EntityView` allows — mutate component storages and send on the
spawn/collision/kill channels — but cannot touch the directory or tracker. -/
abbrev Behavior : Type := Entities → ℕ → ℕ → Storages → Storages

/-- A collision resolution behavior (`Collider::collide` dispatch, external
to the core): given both tags and ids, same access as a pair of views. -/
abbrev Resolver : Type := Entities → Entities → ℕ → ℕ → Storages → Storages

/-- Tick phase 1 from `EntityManager::tick`: drain the pending keystroke and
mouse events into the Input components. -/
def EntityManager.drainInput (m : EntityManager) : EntityManager :=
  let st := m.pendingKeys.foldl (fun st k => st.key_pressed k) m.storage
  let st := m.pendingMouse.foldl (fun st p => st.mouse_moved p) st
  { m with pendingKeys := [], pendingMouse := [], storage := st }

/-- Tick phase 2 from `EntityManager::tick`: for each live id, in directory
order, construct a view and invoke the archetype's tick behavior. (The
source unwraps the view; under the sortedness invariant the lookup always
succeeds, and the model skips an impossible miss.) -/
def EntityManager.dispatch (beh : Behavior) (dt : ℕ) (m : EntityManager) : EntityManager :=
  let st := m.entities.foldl
    (fun st id =>
      match m.view id with
      | some v => beh v.2 dt v.1 st
      | none => st)
    m.storage
  { m with storage := st }

/-- Tick phase 3 from `EntityManager::tick`: drain the kill queue through
`EntityManager::kill`. (Killing sends nothing back into the queue, so the
loop consumes exactly the queue's contents at phase start.) -/
def EntityManager.drainKills (m : EntityManager) : EntityManager :=
  let dying := m.storage.killQ
  let m1 := { m with storage := { m.storage with killQ := [] } }
  dying.foldl (fun m id => m.kill id) m1

/-- Tick phase 4 from `EntityManager::tick`:
`while let Ok(r) = spawn_requests.try_recv() { r(self) }`. The loop keeps
receiving until the channel is empty, so requests sent *during* the drain
are processed in the same pass; `fuel` bounds the number of iterations the
model executes (the source loop is unbounded). -/
def EntityManager.drainSpawns : ℕ → EntityManager → EntityManager
  | 0, m => m
  | fuel + 1, m =>
    match m.storage.spawnQ with
    | [] => m
    | r :: rest =>
      EntityManager.drainSpawns fuel
        (runReq r { m with storage := { m.storage with spawnQ := rest } })

/-- Tick phase 5 from `EntityManager::tick`: drain the collision queue,
re-resolving both ids through the directory and invoking collision
resolution for each surviving pair; pairs with a dead id are dropped.
Resolution may send further events, which the source loop also drains, hence
the fuel. -/
def EntityManager.drainCollisions (res : Resolver) : ℕ → EntityManager → EntityManager
  | 0, m => m
  | fuel + 1, m =>
    match m.storage.collQ with
    | [] => m
    | (id1, id2) :: rest =>
      let m1 := { m with storage := { m.storage with collQ := rest } }
      match m1.view id1, m1.view id2 with
      | some v1, some v2 =>
        EntityManager.drainCollisions res fuel
          { m1 with storage := res v1.2 v2.2 id1 id2 m1.storage }
      | _, _ => EntityManager.drainCollisions res fuel m1

/-- `EntityManager::tick(dt)` from `entity.rs`: the five phases in source
order — input drain, per-entity dispatch, kill drain, spawn drain, collision
drain. -/
def EntityManager.tick (beh : Behavior) (res : Resolver) (dt sf cf : ℕ)
    (m : EntityManager) : EntityManager :=
  EntityManager.drainCollisions res cf
    (EntityManager.drainSpawns sf
      (EntityManager.drainKills
        (EntityManager.dispatch beh dt
          (EntityManager.drainInput m))))

/-- An externally driven manager operation (the claim C7 quantifies over
sequences of spawn and kill calls). -/
inductive Op where
  | spawn (tag : Entities) (comps : List Components)
  | kill (id : ℕ)
deriving DecidableEq

/-- Run a sequence of spawn/kill operations, collecting the ids returned by
the spawn calls in order. -/
def runOps : List Op → EntityManager → EntityManager × List ℕ
  | [], m => (m, [])
  | Op.spawn t cs :: rest, m =>
    let r := m.spawn t cs
    let rec_ := runOps rest r.1
    (rec_.1, r.2 :: rec_.2)
  | Op.kill id :: rest, m => runOps rest (m.kill id)

/-- The entity-manager invariant: strictly sorted directory, every live id
below the tracker, and parallel directory vectors. -/
def Inv (m : EntityManager) : Prop :=
  m.entities.Sorted (· < ·) ∧
  (∀ e ∈ m.entities, e < m.tracker) ∧
  m.types.length = m.entities.length

/-- Count the collision events for the unordered pair `{A, B}` in a queue. -/
def countPair (q : List (ℕ × ℕ)) (A B : ℕ) : ℕ :=
  q.countP (fun e => decide (e = (A, B) ∨ e = (B, A)))

/-! ### Timer lemmas -/

theorem Cooldown.tickSeq_acc (ds : List ℕ) : ∀ c : Cooldown,
    (Cooldown.tickSeq c ds).acc = c.acc - ds.sum ∧
    (Cooldown.tickSeq c ds).cooldown = c.cooldown := by
  induction ds with
  | nil => intro c; simp [Cooldown.tickSeq]
  | cons d ds ih =>
    intro c
    have h := ih (c.tick d)
    simp only [Cooldown.tickSeq] at *
    refine ⟨?_, h.2⟩
    rw [h.1]
    simp [Cooldown.tick]
    omega

/-- Characterization of the state after `n ≥ 1` fixed-`dt` ticks of a fresh
timer with threshold `T`, when `0 < dt ≤ T`: the threshold is untouched, the
accumulator stays within `[1, T]`, and `acc + T * fires = n * dt`. -/
theorem Threshold.tickN_char (T dt : ℕ) (hdt : 0 < dt) (hle : dt ≤ T) :
    ∀ n : ℕ, 1 ≤ n →
      ((Threshold.new T).tickN dt n).1.threshold = T ∧
      1 ≤ ((Threshold.new T).tickN dt n).1.acc ∧
      ((Threshold.new T).tickN dt n).1.acc ≤ T ∧
      ((Threshold.new T).tickN dt n).1.acc + T * ((Threshold.new T).tickN dt n).2 = n * dt := by
  intro n
  induction n with
  | zero => omega
  | succ n ih =>
    intro _
    by_cases hn0 : n = 0
    · subst hn0
      simp only [Threshold.tickN, Threshold.tick, Threshold.new, Threshold.defaultVal]
      rw [if_neg (by omega)]
      simp
      omega
    · obtain ⟨h1, h2, h3, h4⟩ := ih (by omega)
      rcases hE : (Threshold.new T).tickN dt n with ⟨⟨a, th⟩, f⟩
      rw [hE] at h1 h2 h3 h4
      simp only at h1 h2 h3 h4
      simp only [Threshold.tickN, hE, Threshold.tick]
      rw [h1]
      by_cases hfire : T < a + dt
      · rw [if_pos hfire]
        refine ⟨rfl, by simp; omega, by simp; omega, ?_⟩
        show a + dt - T + T * (f + 1) = (n + 1) * dt
        have hTf : T * (f + 1) = T * f + T := by ring
        rw [hTf, Nat.succ_mul]
        omega
      · rw [if_neg hfire]
        refine ⟨rfl, by simp; omega, by simp; omega, ?_⟩
        show a + dt + T * (f + 0) = (n + 1) * dt
        rw [Nat.add_zero, Nat.succ_mul]
        omega

/-! ### Association-list storage lemmas -/

theorem Storage.get_insert_self {α : Type} (s : Storage α) (k : ℕ) (v : α) :
    (s.insert k v).get k = some v := by
  induction s with
  | nil => simp [Storage.insert, Storage.get]
  | cons kv rest ih =>
    simp only [Storage.insert]
    by_cases h : kv.1 = k
    · rw [if_pos h]
      simp [Storage.get]
    · rw [if_neg h]
      simp only [Storage.get, if_neg h, ih]

theorem Storage.get_insert_ne {α : Type} (s : Storage α) (k k' : ℕ) (v : α) (h : k' ≠ k) :
    (s.insert k v).get k' = s.get k' := by
  induction s with
  | nil =>
    simp only [Storage.insert, Storage.get]
    rw [if_neg (fun hh : k = k' => h hh.symm)]
  | cons kv rest ih =>
    simp only [Storage.insert]
    by_cases hk : kv.1 = k
    · rw [if_pos hk]
      simp only [Storage.get]
      rw [if_neg (fun hh : k = k' => h hh.symm), if_neg (fun hh : kv.1 = k' => h (hk ▸ hh).symm)]
    · rw [if_neg hk]
      simp only [Storage.get, ih]

theorem Storage.get_eq_none {α : Type} (s : Storage α) (k : ℕ)
    (h : k ∉ s.map Prod.fst) : s.get k = none := by
  induction s with
  | nil => rfl
  | cons kv rest ih =>
    simp only [List.map_cons, List.mem_cons, not_or] at h
    simp only [Storage.get]
    rw [if_neg (fun hh : kv.1 = k => h.1 hh.symm)]
    exact ih h.2

theorem Storage.mem_keys_insert {α : Type} (s : Storage α) (k a : ℕ) (v : α) :
    a ∈ (s.insert k v).map Prod.fst ↔ a = k ∨ a ∈ s.map Prod.fst := by
  induction s with
  | nil => simp [Storage.insert]
  | cons kv rest ih =>
    simp only [Storage.insert]
    by_cases h : kv.1 = k
    · rw [if_pos h]
      simp [h]
    · rw [if_neg h]
      simp only [List.map_cons, List.mem_cons, ih]
      tauto

theorem Storage.keysNodup_insert {α : Type} (s : Storage α) (k : ℕ) (v : α)
    (h : s.keysNodup) : (s.insert k v).keysNodup := by
  induction s with
  | nil => simp [Storage.insert, Storage.keysNodup]
  | cons kv rest ih =>
    simp only [Storage.keysNodup, List.map_cons, List.nodup_cons] at h
    simp only [Storage.insert]
    by_cases hk : kv.1 = k
    · rw [if_pos hk]
      simp only [Storage.keysNodup, List.map_cons, List.nodup_cons]
      exact ⟨hk ▸ h.1, h.2⟩
    · rw [if_neg hk]
      simp only [Storage.keysNodup, List.map_cons, List.nodup_cons]
      refine ⟨?_, ih h.2⟩
      rw [Storage.mem_keys_insert]
      rintro (hh | hh)
      · exact hk hh
      · exact h.1 hh

theorem Storage.get_remove_self {α : Type} (s : Storage α) (k : ℕ) :
    (s.remove k).get k = none := by
  induction s with
  | nil => rfl
  | cons kv rest ih =>
    simp only [Storage.remove, List.filter_cons]
    by_cases h : kv.1 = k
    · rw [if_neg (by simp [h])]
      exact ih
    · rw [if_pos (by simp [h])]
      simp only [Storage.get]
      rw [if_neg h]
      exact ih

/-! ### Collision-pair counting lemmas -/

theorem countPair_append (q1 q2 : List (ℕ × ℕ)) (A B : ℕ) :
    countPair (q1 ++ q2) A B = countPair q1 A B + countPair q2 A B :=
  List.countP_append _ _ _

theorem countPair_comm (q : List (ℕ × ℕ)) (A B : ℕ) :
    countPair q A B = countPair q B A := by
  unfold countPair
  refine List.countP_congr (fun e _ => ?_)
  simp only [decide_eq_true_eq]
  exact or_comm

/-- Counting the {A, B} events produced by one collision scan over a
positions table with distinct keys: there is exactly one event iff the table
holds an entry for the partner `B` that is a collider in the same grid cell. -/
theorem countPair_scanList (collP : ℕ → Bool) (pEq : Vec3 → Bool) (A B : ℕ) (hAB : A ≠ B) :
    ∀ l : Storage Vec3, (l.map Prod.fst).Nodup →
      List.countP (fun e => decide (e = (A, B) ∨ e = (B, A)))
          (l.filterMap fun other =>
            if collP other.1 && pEq other.2 then some (A, other.1) else none) =
        (match Storage.get l B with
         | some v => if collP B && pEq v then 1 else 0
         | none => 0) := by
  intro l
  induction l with
  | nil => intro _; rfl
  | cons kv rest ih =>
    intro hnd
    simp only [List.map_cons, List.nodup_cons] at hnd
    by_cases hcond : (collP kv.1 && pEq kv.2) = true
    · rw [List.filterMap_cons_some (b := (A, kv.1)) (by rw [if_pos hcond])]
      rw [List.countP_cons]
      by_cases hk : kv.1 = B
      · have hrest : List.countP (fun e => decide (e = (A, B) ∨ e = (B, A)))
            (rest.filterMap fun other =>
              if collP other.1 && pEq other.2 then some (A, other.1) else none) = 0 := by
          refine List.countP_eq_zero.mpr (fun x hx => ?_)
          rcases List.mem_filterMap.mp hx with ⟨a, ha, hfa⟩
          split at hfa
          · cases hfa
            simp only [decide_eq_true_eq]
            rintro (heq | heq)
            · have h2 : a.1 = B := congrArg Prod.snd heq
              exact hnd.1 (by rw [hk, ← h2]; exact List.mem_map_of_mem Prod.fst ha)
            · exact hAB (congrArg Prod.fst heq)
          · exact absurd hfa (by simp)
        rw [hrest]
        rw [if_pos (by simp only [decide_eq_true_eq]; exact Or.inl (by rw [hk]))]
        simp only [Storage.get]
        rw [if_pos hk]
        show 0 + 1 = if (collP B && pEq kv.2) = true then 1 else 0
        rw [if_pos (hk ▸ hcond)]
      · rw [if_neg (by
          simp only [decide_eq_true_eq, not_or]
          exact ⟨fun heq => hk (congrArg Prod.snd heq),
                 fun heq => hAB (congrArg Prod.fst heq)⟩)]
        rw [Nat.add_zero, ih hnd.2]
        simp only [Storage.get]
        rw [if_neg hk]
    · rw [List.filterMap_cons_none (by rw [if_neg hcond])]
      rw [ih hnd.2]
      by_cases hk : kv.1 = B
      · rw [Storage.get_eq_none rest B (fun hmem => hnd.1 (hk ▸ hmem))]
        simp only [Storage.get]
        rw [if_pos hk]
        show (0 : ℕ) = if (collP B && pEq kv.2) = true then 1 else 0
        rw [if_neg (fun hc => hcond (by rw [hk]; exact hc))]
      · simp only [Storage.get]
        rw [if_neg hk]

/-- Structural facts about the position setter: the positions table gets the
new value committed, the collider table is untouched, and the collision
queue grows by the scan's events exactly when the moved entity is a
collider. -/
theorem set_position_fields (s : Storages) (E : ℕ) (p : Vec3) :
    (s.set_position E p).positions = s.positions.insert E p ∧
    (s.set_position E p).colliders = s.colliders ∧
    (s.set_position E p).collQ =
      (if s.is_collider E then s.collQ ++ s.scanEvents E p else s.collQ) := by
  unfold Storages.set_position
  by_cases h : s.is_collider E = true <;> simp [h]

theorem is_collider_set_position (s : Storages) (E x : ℕ) (p : Vec3) :
    (s.set_position E p).is_collider x = s.is_collider x := by
  unfold Storages.is_collider
  rw [(set_position_fields s E p).2.1]

/-- Count of {A, B} events contributed by one set_position call. -/
theorem countPair_set_position (s : Storages) (e : ℕ) (q : Vec3) (A B : ℕ) :
    countPair (s.set_position e q).collQ A B =
      countPair s.collQ A B +
        (if s.is_collider e then countPair (s.scanEvents e q) A B else 0) := by
  rw [(set_position_fields s e q).2.2]
  by_cases h : s.is_collider e = true
  · rw [if_pos h, if_pos h, countPair_append]
  · simp only [Bool.not_eq_true] at h
    rw [h]
    simp

theorem countPair_scan_self (s : Storages) (q : Vec3) (A B : ℕ) (hAB : A ≠ B)
    (hnd : s.positions.keysNodup) :
    countPair (s.scanEvents A q) A B =
      (match s.positions.get B with
       | some v =>
         if s.is_collider B && (Vec2.ofVec3 q).floor.eq (Vec2.ofVec3 v).floor then 1 else 0
       | none => 0) :=
  countPair_scanList s.is_collider
    (fun v => (Vec2.ofVec3 q).floor.eq (Vec2.ofVec3 v).floor) A B hAB s.positions hnd

theorem countPair_scan_other (s : Storages) (e : ℕ) (q : Vec3) (A B : ℕ)
    (hA : e ≠ A) (hB : e ≠ B) : countPair (s.scanEvents e q) A B = 0 := by
  refine List.countP_eq_zero.mpr (fun x hx => ?_)
  rcases List.mem_filterMap.mp hx with ⟨a, _, hfa⟩
  split at hfa
  · cases hfa
    simp only [decide_eq_true_eq]
    rintro (heq | heq)
    · exact hA (congrArg Prod.fst heq)
    · exact hB (congrArg Prod.fst heq)
  · exact absurd hfa (by simp)

theorem f32_eq_self (x : ℚ) : f32_eq x x = true := by
  have h1 : (-(1 / 100) : ℚ) < x - x := by rw [sub_self]; norm_num
  have h2 : x - x < (1 / 100 : ℚ) := by rw [sub_self]; norm_num
  simp [f32_eq, f32_eq_tolerance, h1, h2]

theorem Vec2.eq_self (v : Vec2) : v.eq v = true := by
  simp [Vec2.eq, f32_eq_self]

/-! ## Claim C1 -/

/-- C1: for a Collider-bearing entity E, set_position(E, p) enqueues a
collision event (E, other) for every other Collider-bearing entity whose
stored position, grid-floor-quantized, matches the quantized p; the batch of
events appended to the collision queue is computed from the pre-call
positions table (the scan reads old positions, never the new value), and the
new value is committed to the positions table separately. -/
theorem set_position_scan_spec (s : Storages) (E : ℕ) (p : Vec3)
    (hE : s.is_collider E = true) :
    (∀ other opos, (other, opos) ∈ s.positions → other ≠ E →
        s.is_collider other = true →
        (Vec2.ofVec3 p).floor.eq (Vec2.ofVec3 opos).floor = true →
        (E, other) ∈ (s.set_position E p).collQ) ∧
    (s.set_position E p).collQ = s.collQ ++ s.scanEvents E p ∧
    (s.set_position E p).positions = s.positions.insert E p := by
  obtain ⟨hpos, _hcol, hQ⟩ := set_position_fields s E p
  rw [hQ, if_pos hE]
  refine ⟨?_, rfl, hpos⟩
  intro other opos hmem _hne hc heq
  apply List.mem_append_right
  exact List.mem_filterMap.mpr ⟨(other, opos), hmem, by rw [if_pos (by rw [hc, heq]; rfl)]⟩

/-- Witness for set_position_scan_spec: entity 0 moving onto the grid cell
of entity 1 (both colliders) enqueues the event (0, 1). -/
theorem set_position_scan_spec_witness :
    (0, 1) ∈ (({ Storages.new with
        colliders := [(0, ()), (1, ())],
        positions := [(1, ⟨5, 5, 1⟩)] } : Storages).set_position 0 ⟨5, 5, 0⟩).collQ :=
  (set_position_scan_spec
      { Storages.new with
        colliders := [(0, ()), (1, ())],
        positions := [(1, ⟨5, 5, 1⟩)] } 0 ⟨5, 5, 0⟩ rfl).1
    1 ⟨5, 5, 1⟩ (by simp) (by decide) rfl (Vec2.eq_self _)

/-! ## Claim C10 -/

/-- C10: the pairwise scan in set_position does not exclude the moving
entity itself: a Collider-bearing entity E whose new position lands in the
grid cell of its own stored position enqueues a self-collision event (E, E). -/
theorem set_position_self_collision (s : Storages) (E : ℕ) (p q : Vec3)
    (hE : s.is_collider E = true) (hq : (E, q) ∈ s.positions)
    (heq : (Vec2.ofVec3 p).floor.eq (Vec2.ofVec3 q).floor = true) :
    (E, E) ∈ (s.set_position E p).collQ := by
  rw [(set_position_fields s E p).2.2, if_pos hE]
  apply List.mem_append_right
  exact List.mem_filterMap.mpr ⟨(E, q), hq, by rw [if_pos (by rw [hE, heq]; rfl)]⟩

/-- Witness for set_position_self_collision: collider 2 moving within its
own grid cell produces the event (2, 2). -/
theorem set_position_self_collision_witness :
    (2, 2) ∈ (({ Storages.new with
        colliders := [(2, ())],
        positions := [(2, ⟨3, 4, 0⟩)] } : Storages).set_position 2 ⟨3, 4, 9⟩).collQ :=
  set_position_self_collision
    { Storages.new with
      colliders := [(2, ())],
      positions := [(2, ⟨3, 4, 0⟩)] } 2 ⟨3, 4, 9⟩ ⟨3, 4, 0⟩ rfl (by simp) (Vec2.eq_self _)

/-! ## Claim C8 -/

/-- C8 amended: for two distinct colliders A and B both set, within the same
tick, into the same grid cell, the number of new collision events for the
unordered pair {A, B} depends on whether the still-unmoved partner already
occupied the target cell: (1) if the first mover's target cell differs from
the partner's stored cell, exactly one pair event is enqueued (by the second
call's scan); (2) if the partner already sits in the target cell, the order
that moves the other entity first enqueues two pair events (its own scan
already sees the partner there, and the partner's scan then sees the
committed position); (3) a set_position call whose target cell matches
neither partner's stored cell adds no {A, B} event at all. Each two-call
part is stated for one call order and covers the other order by
instantiating A and B swapped, as countPair is symmetric in the pair. -/
theorem pair_collision_exactly_once :
    (∀ (s : Storages) (A B : ℕ) (pA pB pB0 : Vec3),
      A ≠ B → s.positions.keysNodup →
      s.is_collider A = true → s.is_collider B = true →
      s.positions.get B = some pB0 →
      (Vec2.ofVec3 pA).floor.eq (Vec2.ofVec3 pB0).floor = false →
      (Vec2.ofVec3 pB).floor.eq (Vec2.ofVec3 pA).floor = true →
      countPair ((s.set_position A pA).set_position B pB).collQ A B
        = countPair s.collQ A B + 1) ∧
    (∀ (s : Storages) (A B : ℕ) (pA pB pB0 : Vec3),
      A ≠ B → s.positions.keysNodup →
      s.is_collider A = true → s.is_collider B = true →
      s.positions.get B = some pB0 →
      (Vec2.ofVec3 pA).floor.eq (Vec2.ofVec3 pB0).floor = true →
      (Vec2.ofVec3 pB).floor.eq (Vec2.ofVec3 pA).floor = true →
      countPair ((s.set_position A pA).set_position B pB).collQ A B
        = countPair s.collQ A B + 2) ∧
    (∀ (s : Storages) (e : ℕ) (q : Vec3) (A B : ℕ),
      A ≠ B → s.positions.keysNodup →
      (e = A → ∀ pB0, s.positions.get B = some pB0 →
        (Vec2.ofVec3 q).floor.eq (Vec2.ofVec3 pB0).floor = false) →
      (e = B → ∀ pA0, s.positions.get A = some pA0 →
        (Vec2.ofVec3 q).floor.eq (Vec2.ofVec3 pA0).floor = false) →
      countPair (s.set_position e q).collQ A B = countPair s.collQ A B) := by
  refine ⟨?_, ?_, ?_⟩
  · intro s A B pA pB pB0 hAB hnd hcA hcB hgetB hfar hnear
    set s1 := s.set_position A pA with hs1
    have h1pos : s1.positions = s.positions.insert A pA := (set_position_fields s A pA).1
    have hc1B : s1.is_collider B = true := by
      rw [hs1, is_collider_set_position]; exact hcB
    have hc1A : s1.is_collider A = true := by
      rw [hs1, is_collider_set_position]; exact hcA
    have hnd1 : s1.positions.keysNodup := by
      rw [h1pos]; exact Storage.keysNodup_insert _ _ _ hnd
    have hgetA1 : s1.positions.get A = some pA := by
      rw [h1pos]; exact Storage.get_insert_self _ _ _
    rw [countPair_set_position s1 B pB A B, hc1B, if_pos rfl]
    rw [countPair_comm (s1.scanEvents B pB) A B]
    rw [countPair_scan_self s1 pB B A (Ne.symm hAB) hnd1, hgetA1]
    show countPair s1.collQ A B +
      (if (s1.is_collider A && (Vec2.ofVec3 pB).floor.eq (Vec2.ofVec3 pA).floor) = true
       then 1 else 0) = countPair s.collQ A B + 1
    rw [hc1A, hnear]
    show countPair s1.collQ A B + 1 = countPair s.collQ A B + 1
    rw [hs1, countPair_set_position s A pA A B, hcA, if_pos rfl]
    rw [countPair_scan_self s pA A B hAB hnd, hgetB]
    show countPair s.collQ A B +
      (if (s.is_collider B && (Vec2.ofVec3 pA).floor.eq (Vec2.ofVec3 pB0).floor) = true
       then 1 else 0) + 1 = countPair s.collQ A B + 1
    rw [hfar]
    simp
  · intro s A B pA pB pB0 hAB hnd hcA hcB hgetB hpre hnear
    set s1 := s.set_position A pA with hs1
    have h1pos : s1.positions = s.positions.insert A pA := (set_position_fields s A pA).1
    have hc1B : s1.is_collider B = true := by
      rw [hs1, is_collider_set_position]; exact hcB
    have hc1A : s1.is_collider A = true := by
      rw [hs1, is_collider_set_position]; exact hcA
    have hnd1 : s1.positions.keysNodup := by
      rw [h1pos]; exact Storage.keysNodup_insert _ _ _ hnd
    have hgetA1 : s1.positions.get A = some pA := by
      rw [h1pos]; exact Storage.get_insert_self _ _ _
    rw [countPair_set_position s1 B pB A B, hc1B, if_pos rfl]
    rw [countPair_comm (s1.scanEvents B pB) A B]
    rw [countPair_scan_self s1 pB B A (Ne.symm hAB) hnd1, hgetA1]
    show countPair s1.collQ A B +
      (if (s1.is_collider A && (Vec2.ofVec3 pB).floor.eq (Vec2.ofVec3 pA).floor) = true
       then 1 else 0) = countPair s.collQ A B + 2
    rw [hc1A, hnear]
    show countPair s1.collQ A B + 1 = countPair s.collQ A B + 2
    rw [hs1, countPair_set_position s A pA A B, hcA, if_pos rfl]
    rw [countPair_scan_self s pA A B hAB hnd, hgetB]
    show countPair s.collQ A B +
      (if (s.is_collider B && (Vec2.ofVec3 pA).floor.eq (Vec2.ofVec3 pB0).floor) = true
       then 1 else 0) + 1 = countPair s.collQ A B + 2
    rw [hcB, hpre]
    show countPair s.collQ A B + 1 + 1 = countPair s.collQ A B + 2
    rfl
  · intro s e q A B hAB hnd hB hA
    rw [countPair_set_position]
    by_cases hc : s.is_collider e = true
    · rw [hc, if_pos rfl]
      by_cases heA : e = A
      · subst heA
        rw [countPair_scan_self s q e B hAB hnd]
        cases hgB : s.positions.get B with
        | none => rfl
        | some v =>
          show countPair s.collQ e B +
            (if (s.is_collider B && (Vec2.ofVec3 q).floor.eq (Vec2.ofVec3 v).floor) = true
             then 1 else 0) = countPair s.collQ e B
          rw [hB rfl v hgB]
          simp
      · by_cases heB : e = B
        · subst heB
          rw [countPair_comm (s.scanEvents e q) A e]
          rw [countPair_scan_self s q e A (Ne.symm hAB) hnd]
          cases hgA : s.positions.get A with
          | none => rfl
          | some v =>
            show countPair s.collQ A e +
              (if (s.is_collider A && (Vec2.ofVec3 q).floor.eq (Vec2.ofVec3 v).floor) = true
               then 1 else 0) = countPair s.collQ A e
            rw [hA rfl v hgA]
            simp
        · rw [countPair_scan_other s e q A B heA heB]
          rfl
    · have hcf : s.is_collider e = false := by simpa using hc
      rw [hcf]
      simp

/-- Witness for pair_collision_exactly_once: colliders 0 and 1, both moved
into cell (5, 5) in one tick, produce exactly one (unordered) pair event. -/
theorem pair_collision_exactly_once_witness :
    countPair ((({ Storages.new with
        colliders := [(0, ()), (1, ())],
        positions := [(0, ⟨2, 2, 0⟩), (1, ⟨7, 5, 0⟩)] } : Storages).set_position
          0 ⟨5, 5, 0⟩).set_position 1 ⟨5, 5, 1⟩).collQ 0 1
      = countPair ({ Storages.new with
        colliders := [(0, ()), (1, ())],
        positions := [(0, ⟨2, 2, 0⟩), (1, ⟨7, 5, 0⟩)] } : Storages).collQ 0 1 + 1 :=
  pair_collision_exactly_once.1
    { Storages.new with
      colliders := [(0, ()), (1, ())],
      positions := [(0, ⟨2, 2, 0⟩), (1, ⟨7, 5, 0⟩)] }
    0 1 ⟨5, 5, 0⟩ ⟨5, 5, 1⟩ ⟨7, 5, 0⟩ (by decide) (by unfold Storage.keysNodup; decide) rfl rfl rfl
    (by norm_num [Vec2.ofVec3, Vec2.floor, Vec2.eq, f32_eq, f32_eq_tolerance])
    (Vec2.eq_self _)

/-- C8 fails on the code as originally stated: with colliders 0 (stored in
cell (1,1)) and 1 (stored in cell (5,5)) — not previously coincident — both
set within one tick into cell (5,5), the order that moves 0 first enqueues
two {0,1} events, while the opposite order enqueues one; the pair count is
neither "exactly one" nor independent of the call order. -/
theorem pair_collision_order_dependent_cex :
    (Vec2.ofVec3 ⟨1, 1, 0⟩).floor.eq (Vec2.ofVec3 ⟨5, 5, 0⟩).floor = false ∧
    countPair ((({ Storages.new with
        colliders := [(0, ()), (1, ())],
        positions := [(0, ⟨1, 1, 0⟩), (1, ⟨5, 5, 0⟩)] } : Storages).set_position
          0 ⟨5, 5, 2⟩).set_position 1 ⟨5, 5, 3⟩).collQ 0 1 = 2 ∧
    countPair ((({ Storages.new with
        colliders := [(0, ()), (1, ())],
        positions := [(0, ⟨1, 1, 0⟩), (1, ⟨5, 5, 0⟩)] } : Storages).set_position
          1 ⟨5, 5, 3⟩).set_position 0 ⟨5, 5, 2⟩).collQ 0 1 = 1 := by
  refine ⟨?_, ?_, ?_⟩
  · norm_num [Vec2.ofVec3, Vec2.floor, Vec2.eq, f32_eq, f32_eq_tolerance]
  · rw [pair_collision_exactly_once.2.1
      { Storages.new with
        colliders := [(0, ()), (1, ())],
        positions := [(0, ⟨1, 1, 0⟩), (1, ⟨5, 5, 0⟩)] }
      0 1 ⟨5, 5, 2⟩ ⟨5, 5, 3⟩ ⟨5, 5, 0⟩ (by decide)
      (by unfold Storage.keysNodup; decide) rfl rfl rfl
      (Vec2.eq_self _) (Vec2.eq_self _)]
    rfl
  · rw [countPair_comm]
    rw [pair_collision_exactly_once.1
      { Storages.new with
        colliders := [(0, ()), (1, ())],
        positions := [(0, ⟨1, 1, 0⟩), (1, ⟨5, 5, 0⟩)] }
      1 0 ⟨5, 5, 3⟩ ⟨5, 5, 2⟩ ⟨1, 1, 0⟩ (by decide)
      (by unfold Storage.keysNodup; decide) rfl rfl rfl
      (by norm_num [Vec2.ofVec3, Vec2.floor, Vec2.eq, f32_eq, f32_eq_tolerance])
      (Vec2.eq_self _)]
    rfl

/-! ## Claim C4 -/

/-- C4: for every Timer state with accumulator `a` and threshold `T`,
`tick(dt)` first forms `a + dt`; if that is strictly greater than `T` it
subtracts `T` and returns true, otherwise it keeps `a + dt` and returns
false; the threshold itself is untouched (carry-over semantics). -/
theorem threshold_tick_spec (t : Threshold) (dt : ℕ) :
    ((t.tick dt).1.acc =
      if t.threshold < t.acc + dt then t.acc + dt - t.threshold else t.acc + dt) ∧
    ((t.tick dt).2 = true ↔ t.threshold < t.acc + dt) ∧
    (t.tick dt).1.threshold = t.threshold := by
  simp only [Threshold.tick]
  by_cases h : t.threshold < t.acc + dt
  · rw [if_pos h, if_pos h]
    exact ⟨rfl, by simp [h], rfl⟩
  · rw [if_neg h, if_neg h]
    exact ⟨rfl, by simp [h], rfl⟩

/-! ## Claim C3 -/

/-- C3 fails on the code: with threshold `T = 3` and fixed `dt = 2`
(`0 < dt < T`), the timer fires on calls 4 and 5 consecutively, so it does
not fire exactly once every `ceil(T/dt) = 2` calls. -/
theorem timer_once_every_ceil_cex : ¬ firesOnceEvery 3 2 ((3 + 2 - 1) / 2) := by
  intro h
  have h45 := h 4 5 (by decide) (by decide) (by decide) (by decide)
    (fun k h1 h2 => absurd h2 (by omega))
  omega

/-- C3 amended: with threshold `T`, fixed `dt`, `0 < dt < T`, after `n ≥ 1`
calls the timer has fired exactly `(n * dt - 1) / T` times (one fire each
time the running total `n * dt` strictly passes a multiple of `T`, i.e. at
the average rate `dt / T` per call rather than once every `ceil(T/dt)`
calls), and no single call ever fires more than once. -/
theorem timer_fire_count (T dt n : ℕ) (hdt : 0 < dt) (hlt : dt < T) (hn : 1 ≤ n) :
    ((Threshold.new T).tickN dt n).2 = (n * dt - 1) / T ∧
    ∀ k : ℕ, ((Threshold.new T).tickN dt (k + 1)).2 ≤ ((Threshold.new T).tickN dt k).2 + 1 := by
  constructor
  · obtain ⟨h1, h2, h3, h4⟩ := Threshold.tickN_char T dt hdt (le_of_lt hlt) n hn
    have hT : 0 < T := by omega
    have hsplit : n * dt - 1 =
        T * ((Threshold.new T).tickN dt n).2 + (((Threshold.new T).tickN dt n).1.acc - 1) := by
      omega
    rw [hsplit, Nat.mul_add_div hT,
      Nat.div_eq_of_lt (show ((Threshold.new T).tickN dt n).1.acc - 1 < T by omega)]
    omega
  · intro k
    show (Threshold.tickN (Threshold.new T) dt (k + 1)).2 ≤ _ + 1
    simp only [Threshold.tickN]
    cases (((Threshold.new T).tickN dt k).1.tick dt).2 <;> simp

/-- Witness for timer_fire_count at `T = 3`, `dt = 2`, `n = 5` (three fires
in the first five calls). -/
theorem timer_fire_count_witness :
    ((Threshold.new 3).tickN 2 5).2 = (5 * 2 - 1) / 3 :=
  (timer_fire_count 3 2 5 (by decide) (by decide) (by decide)).1

/-! ## Claim C9 -/

/-- C9: Cooldown.tick is saturating subtraction on the accumulator,
is_cooling_down holds exactly when the accumulator is nonzero, and after
cool_down arms the accumulator with the stored duration, any tick sequence
whose total elapsed time reaches that duration reports not cooling down. -/
theorem cooldown_spec (c : Cooldown) (dt : ℕ) (ds : List ℕ) :
    ((c.tick dt).acc = c.acc - dt ∧ (c.tick dt).cooldown = c.cooldown) ∧
    (c.is_cooling_down = true ↔ c.acc ≠ 0) ∧
    (c.cooldown ≤ ds.sum → (Cooldown.tickSeq c.cool_down ds).is_cooling_down = false) := by
  refine ⟨⟨rfl, rfl⟩, by simp [Cooldown.is_cooling_down], ?_⟩
  intro h
  have hacc := (Cooldown.tickSeq_acc ds c.cool_down).1
  simp only [Cooldown.is_cooling_down, hacc]
  simp only [Cooldown.cool_down]
  simp
  omega

/-- Witness for cooldown_spec: a cooldown of 5 ticked by 3 then 2 is no
longer cooling down. -/
theorem cooldown_spec_witness :
    (Cooldown.tickSeq (Cooldown.cool_down ⟨0, 5⟩) [3, 2]).is_cooling_down = false :=
  (cooldown_spec ⟨0, 5⟩ 0 [3, 2]).2.2 (by decide)

/-! ### Binary search correctness -/

theorem bsGo_ok (l : List ℕ) (x : ℕ) :
    ∀ fuel left right i, right - left ≤ fuel → right ≤ l.length →
      bsGo l x left right = Except.ok i → l[i]? = some x := by
  intro fuel
  induction fuel with
  | zero =>
    intro left right i hf hlen h
    rw [bsGo, dif_neg (by omega : ¬ left < right)] at h
    exact absurd h (by simp)
  | succ fuel ih =>
    intro left right i hf hlen h
    rw [bsGo] at h
    by_cases hlr : left < right
    · rw [dif_pos hlr] at h
      by_cases h1 : l.getD (left + (right - left) / 2) 0 < x
      · rw [if_pos h1] at h
        exact ih (left + (right - left) / 2 + 1) right i (by omega) hlen h
      · rw [if_neg h1] at h
        by_cases h2 : x < l.getD (left + (right - left) / 2) 0
        · rw [if_pos h2] at h
          exact ih left (left + (right - left) / 2) i (by omega) (by omega) h
        · rw [if_neg h2] at h
          cases h
          have hmidlen : left + (right - left) / 2 < l.length := by omega
          have hD : l.getD (left + (right - left) / 2) 0 = l[left + (right - left) / 2] := by
            simp [List.getD_eq_getElem?_getD, List.getElem?_eq_getElem hmidlen]
          have hval : l[left + (right - left) / 2] = x := by omega
          rw [List.getElem?_eq_getElem hmidlen, hval]
    · rw [dif_neg hlr] at h
      exact absurd h (by simp)

theorem bsGo_complete (l : List ℕ) (x : ℕ) (hs : l.Sorted (· < ·)) :
    ∀ fuel left right, right - left ≤ fuel → right ≤ l.length →
      (∃ j, left ≤ j ∧ j < right ∧ l[j]? = some x) →
      ∃ i, bsGo l x left right = Except.ok i := by
  have hmono : ∀ (i j : ℕ) (_ : i < l.length) (_ : j < l.length), i < j → l[i] < l[j] :=
    fun i j hi hj hij => (List.pairwise_iff_getElem.mp hs) i j hi hj hij
  intro fuel
  induction fuel with
  | zero =>
    rintro left right hf hlen ⟨j, hj1, hj2, -⟩
    omega
  | succ fuel ih =>
    rintro left right hf hlen ⟨j, hj1, hj2, hj3⟩
    have hlr : left < right := by omega
    rw [bsGo, dif_pos hlr]
    obtain ⟨hjlen, hjval⟩ := List.getElem?_eq_some_iff.mp hj3
    have hmidlen : left + (right - left) / 2 < l.length := by omega
    have hD : l.getD (left + (right - left) / 2) 0 = l[left + (right - left) / 2] := by
      simp [List.getD_eq_getElem?_getD, List.getElem?_eq_getElem hmidlen]
    by_cases h1 : l.getD (left + (right - left) / 2) 0 < x
    · rw [if_pos h1]
      apply ih (left + (right - left) / 2 + 1) right (by omega) hlen
      refine ⟨j, ?_, hj2, hj3⟩
      by_contra hcon
      push_neg at hcon
      rw [hD] at h1
      rcases Nat.lt_or_ge j (left + (right - left) / 2) with hlt | hge
      · have := hmono j _ hjlen hmidlen hlt
        omega
      · have hj : j = left + (right - left) / 2 := by omega
        subst hj
        omega
    · rw [if_neg h1]
      by_cases h2 : x < l.getD (left + (right - left) / 2) 0
      · rw [if_pos h2]
        apply ih left (left + (right - left) / 2) (by omega) (by omega)
        refine ⟨j, hj1, ?_, hj3⟩
        by_contra hcon
        push_neg at hcon
        rw [hD] at h2
        rcases Nat.lt_or_ge (left + (right - left) / 2) j with hlt | hge
        · have := hmono _ j hmidlen hjlen hlt
          omega
        · have hj : j = left + (right - left) / 2 := by omega
          subst hj
          omega
      · exact ⟨left + (right - left) / 2, by rw [if_neg h2]⟩

theorem binarySearch_ok (l : List ℕ) (x i : ℕ) (h : binarySearch l x = Except.ok i) :
    l[i]? = some x :=
  bsGo_ok l x l.length 0 l.length i (by omega) (le_refl _) h

theorem binarySearch_mem (l : List ℕ) (x : ℕ) (hs : l.Sorted (· < ·)) (hmem : x ∈ l) :
    ∃ i, binarySearch l x = Except.ok i := by
  obtain ⟨j, hj⟩ := List.mem_iff_getElem?.mp hmem
  have hjlen := (List.getElem?_eq_some_iff.mp hj).1
  exact bsGo_complete l x hs l.length 0 l.length (by omega) (le_refl _)
    ⟨j, Nat.zero_le _, hjlen, hj⟩

theorem binarySearch_not_mem (l : List ℕ) (x : ℕ) (hnm : x ∉ l) :
    ∃ j, binarySearch l x = Except.error j := by
  cases hbs : binarySearch l x with
  | ok i => exact absurd (List.getElem?_mem (binarySearch_ok l x i hbs)) hnm
  | error j => exact ⟨j, rfl⟩

/-! ### Directory invariant lemmas -/

theorem not_mem_eraseIdx_of_sorted (l : List ℕ) (e i : ℕ)
    (hs : l.Sorted (· < ·)) (hi : l[i]? = some e) : e ∉ l.eraseIdx i := by
  intro hmem
  obtain ⟨i', hne, hi'⟩ := List.mem_eraseIdx_iff_getElem?.mp hmem
  have hnd : l.Nodup := hs.nodup
  obtain ⟨hilen, hival⟩ := List.getElem?_eq_some_iff.mp hi
  obtain ⟨hilen', hival'⟩ := List.getElem?_eq_some_iff.mp hi'
  have := (List.pairwise_iff_getElem.mp hnd)
  rcases Nat.lt_or_ge i' i with hlt | hge
  · exact this i' i hilen' hilen hlt (by rw [hival, hival'])
  · have hlt : i < i' := by omega
    exact this i i' hilen hilen' hlt (by rw [hival, hival'])

theorem spawn_spec (m : EntityManager) (t : Entities) (cs : List Components) (h : Inv m) :
    Inv (m.spawn t cs).1 ∧ (m.spawn t cs).2 = m.tracker ∧
    (m.spawn t cs).1.tracker = m.tracker + 1 ∧
    (m.spawn t cs).1.entities = m.entities ++ [m.tracker] := by
  obtain ⟨h1, h2, h3⟩ := h
  refine ⟨⟨?_, ?_, ?_⟩, rfl, rfl, rfl⟩
  · exact List.pairwise_append.mpr
      ⟨h1, List.pairwise_singleton _ _,
       fun a ha b hb => by rw [List.mem_singleton.mp hb]; exact h2 a ha⟩
  · intro e he
    simp only [EntityManager.spawn] at he ⊢
    rcases List.mem_append.mp he with hm | hm
    · exact Nat.lt_succ_of_lt (h2 e hm)
    · rw [List.mem_singleton.mp hm]
      omega
  · simp only [EntityManager.spawn, List.length_append, List.length_singleton, h3]

theorem kill_spec (m : EntityManager) (e : ℕ) (h : Inv m) :
    Inv (m.kill e) ∧ (m.kill e).tracker = m.tracker ∧
    (∀ x ∈ (m.kill e).entities, x ∈ m.entities) := by
  obtain ⟨h1, h2, h3⟩ := h
  cases hbs : binarySearch m.entities e with
  | error j =>
    simp only [EntityManager.kill, hbs]
    exact ⟨⟨h1, h2, h3⟩, trivial, fun x hx => hx⟩
  | ok i =>
    have hig := binarySearch_ok _ _ _ hbs
    have hilen := (List.getElem?_eq_some_iff.mp hig).1
    simp only [EntityManager.kill, hbs]
    refine ⟨⟨?_, ?_, ?_⟩, trivial, ?_⟩
    · exact List.Pairwise.sublist (List.eraseIdx_sublist _ _) h1
    · intro x hx
      exact h2 x (List.eraseIdx_subset _ _ hx)
    · rw [List.length_eraseIdx, List.length_eraseIdx]
      rw [if_pos hilen, if_pos (by omega)]
      omega
    · intro x hx
      exact List.eraseIdx_subset _ _ hx

/-! ## Claim C6 -/

/-- C6: with a sorted directory, killing a live id removes it from the
directory and from every component storage table in the same call — the
subsequent view returns none and every storage lookup returns none — while
killing an id not in the directory leaves the manager untouched. -/
theorem kill_removes_everywhere (m : EntityManager) (e : ℕ)
    (hs : m.entities.Sorted (· < ·)) :
    (e ∈ m.entities →
      ((m.kill e).view e = none ∧
       e ∉ (m.kill e).entities ∧
       (m.kill e).storage.noEntries e)) ∧
    (e ∉ m.entities → m.kill e = m) := by
  constructor
  · intro hmem
    obtain ⟨i, hbs⟩ := binarySearch_mem m.entities e hs hmem
    have hig := binarySearch_ok _ _ _ hbs
    have hout : e ∉ m.entities.eraseIdx i := not_mem_eraseIdx_of_sorted _ e i hs hig
    have hent : (m.kill e).entities = m.entities.eraseIdx i := by
      simp only [EntityManager.kill, hbs]
    have hsto : (m.kill e).storage = m.storage.kill e := by
      simp only [EntityManager.kill, hbs]
    refine ⟨?_, hent ▸ hout, ?_⟩
    · obtain ⟨j, hj⟩ := binarySearch_not_mem ((m.kill e).entities) e (hent ▸ hout)
      simp only [EntityManager.view, hj]
    · rw [hsto]
      exact ⟨Storage.get_remove_self _ _, Storage.get_remove_self _ _,
        Storage.get_remove_self _ _, Storage.get_remove_self _ _,
        Storage.get_remove_self _ _, Storage.get_remove_self _ _,
        Storage.get_remove_self _ _, Storage.get_remove_self _ _,
        Storage.get_remove_self _ _, Storage.get_remove_self _ _,
        Storage.get_remove_self _ _, Storage.get_remove_self _ _,
        Storage.get_remove_self _ _, Storage.get_remove_self _ _⟩
  · intro hnm
    obtain ⟨j, hj⟩ := binarySearch_not_mem m.entities e hnm
    simp only [EntityManager.kill, hj]

/-- Witness for kill_removes_everywhere: killing id 1 out of a two-entity
manager empties its view and storage entries; killing absent id 7 is a
no-op. -/
theorem kill_removes_everywhere_witness :
    (({ EntityManager.new with
        entities := [0, 1], types := [Entities.Wall, Entities.Fruit],
        tracker := 2,
        storage := { Storages.new with positions := [(0, ⟨1, 1, 0⟩), (1, ⟨2, 2, 0⟩)] }
      } : EntityManager).kill 1).view 1 = none :=
  ((kill_removes_everywhere
      { EntityManager.new with
        entities := [0, 1], types := [Entities.Wall, Entities.Fruit],
        tracker := 2,
        storage := { Storages.new with positions := [(0, ⟨1, 1, 0⟩), (1, ⟨2, 2, 0⟩)] } }
      1 (by decide)).1 (by decide)).1

/-! ## Claim C7 -/

theorem runOps_spec : ∀ (ops : List Op) (m : EntityManager), Inv m →
    Inv (runOps ops m).1 ∧ m.tracker ≤ (runOps ops m).1.tracker ∧
    (runOps ops m).2.Sorted (· < ·) ∧ (∀ i ∈ (runOps ops m).2, m.tracker ≤ i) := by
  intro ops
  induction ops with
  | nil =>
    intro m h
    exact ⟨h, le_refl _, List.sorted_nil, by simp [runOps]⟩
  | cons op rest ih =>
    intro m h
    cases op with
    | spawn t cs =>
      obtain ⟨hinv, hid, htr, -⟩ := spawn_spec m t cs h
      obtain ⟨ih1, ih2, ih3, ih4⟩ := ih (m.spawn t cs).1 hinv
      simp only [runOps]
      refine ⟨ih1, by omega, ?_, ?_⟩
      · rw [List.sorted_cons]
        refine ⟨fun b hb => ?_, ih3⟩
        have := ih4 b hb
        omega
      · intro i hi
        rcases List.mem_cons.mp hi with rfl | hi
        · omega
        · have := ih4 i hi
          omega
    | kill id =>
      obtain ⟨hinv, htr, -⟩ := kill_spec m id h
      obtain ⟨ih1, ih2, ih3, ih4⟩ := ih (m.kill id) hinv
      simp only [runOps]
      refine ⟨ih1, by omega, ih3, fun i hi => ?_⟩
      have := ih4 i hi
      omega

/-- C7: over every sequence of spawn/kill operations from a fresh manager,
the ids handed out by the spawn calls are strictly increasing (hence never
reused, also after kills), the directory stays sorted ascending, and the
binary search behind view finds exactly the live ids. -/
theorem ids_strictly_increasing (ops : List Op) :
    (runOps ops EntityManager.new).2.Sorted (· < ·) ∧
    (runOps ops EntityManager.new).1.entities.Sorted (· < ·) ∧
    (∀ e : ℕ, ((runOps ops EntityManager.new).1.view e).isSome = true ↔
      e ∈ (runOps ops EntityManager.new).1.entities) := by
  have hinv : Inv EntityManager.new := ⟨List.sorted_nil, by simp [EntityManager.new], rfl⟩
  obtain ⟨h1, -, h3, -⟩ := runOps_spec ops EntityManager.new hinv
  refine ⟨h3, h1.1, fun e => ⟨?_, ?_⟩⟩
  · intro hv
    unfold EntityManager.view at hv
    cases hbs : binarySearch (runOps ops EntityManager.new).1.entities e with
    | ok i => exact List.getElem?_mem (binarySearch_ok _ _ _ hbs)
    | error j => rw [hbs] at hv; exact absurd hv (by simp)
  · intro hmem
    obtain ⟨i, hbs⟩ := binarySearch_mem _ _ h1.1 hmem
    have hilen := (List.getElem?_eq_some_iff.mp (binarySearch_ok _ _ _ hbs)).1
    unfold EntityManager.view
    rw [hbs]
    have hlen : i < (runOps ops EntityManager.new).1.types.length := by
      rw [h1.2.2]; exact hilen
    show (Option.map (fun t => (e, t)) ((runOps ops EntityManager.new).1.types.get? i)).isSome
      = true
    rw [List.get?_eq_get hlen]
    simp

/-! ### Freshness of spawned ids across the tick phases -/

theorem fresh_comp {m1 m2 m3 : EntityManager}
    (h12 : (∀ e ∈ m2.entities, e ∈ m1.entities ∨ m1.tracker ≤ e) ∧ m1.tracker ≤ m2.tracker)
    (h23 : (∀ e ∈ m3.entities, e ∈ m2.entities ∨ m2.tracker ≤ e) ∧ m2.tracker ≤ m3.tracker) :
    (∀ e ∈ m3.entities, e ∈ m1.entities ∨ m1.tracker ≤ e) ∧ m1.tracker ≤ m3.tracker := by
  refine ⟨fun e he => ?_, le_trans h12.2 h23.2⟩
  rcases h23.1 e he with h | h
  · exact h12.1 e h
  · right
    omega

theorem kill_entities_subset (m : EntityManager) (e : ℕ) :
    (∀ x ∈ (m.kill e).entities, x ∈ m.entities) ∧ (m.kill e).tracker = m.tracker := by
  cases hbs : binarySearch m.entities e with
  | ok i =>
    simp only [EntityManager.kill, hbs]
    exact ⟨fun x hx => List.eraseIdx_subset _ _ hx, trivial⟩
  | error j =>
    simp only [EntityManager.kill, hbs]
    exact ⟨fun x hx => hx, trivial⟩

theorem foldl_kill_subset : ∀ (l : List ℕ) (m : EntityManager),
    (∀ x ∈ (l.foldl (fun m id => m.kill id) m).entities, x ∈ m.entities) ∧
    (l.foldl (fun m id => m.kill id) m).tracker = m.tracker := by
  intro l
  induction l with
  | nil => intro m; exact ⟨fun x hx => hx, rfl⟩
  | cons d ds ih =>
    intro m
    obtain ⟨h1, h2⟩ := kill_entities_subset m d
    obtain ⟨h3, h4⟩ := ih (m.kill d)
    simp only [List.foldl_cons]
    exact ⟨fun x hx => h1 x (h3 x hx), by omega⟩

theorem drainKills_subset (m : EntityManager) :
    (∀ x ∈ m.drainKills.entities, x ∈ m.entities) ∧ m.drainKills.tracker = m.tracker :=
  foldl_kill_subset m.storage.killQ { m with storage := { m.storage with killQ := [] } }

theorem runReq_fresh : ∀ (r : Req) (m : EntityManager),
    (∀ e ∈ (runReq r m).entities, e ∈ m.entities ∨ m.tracker ≤ e) ∧
    m.tracker ≤ (runReq r m).tracker := by
  intro r
  induction r with
  | spawn t cs =>
    intro m
    constructor
    · intro e he
      simp only [runReq, EntityManager.spawn] at he
      rcases List.mem_append.mp he with h | h
      · exact Or.inl h
      · right
        rw [List.mem_singleton.mp h]
    · exact Nat.le_succ _
  | kill id =>
    intro m
    obtain ⟨hsub, htr⟩ := kill_entities_subset m id
    exact ⟨fun e he => Or.inl (hsub e he), le_of_eq htr.symm⟩
  | enqueue r _ =>
    intro m
    exact ⟨fun e he => Or.inl he, le_refl _⟩
  | seq r1 r2 ih1 ih2 =>
    intro m
    exact fresh_comp (ih1 m) (ih2 (runReq r1 m))

theorem drainSpawns_fresh : ∀ (fuel : ℕ) (m : EntityManager),
    (∀ e ∈ (EntityManager.drainSpawns fuel m).entities, e ∈ m.entities ∨ m.tracker ≤ e) ∧
    m.tracker ≤ (EntityManager.drainSpawns fuel m).tracker := by
  intro fuel
  induction fuel with
  | zero => intro m; exact ⟨fun e he => Or.inl he, le_refl _⟩
  | succ fuel ih =>
    intro m
    cases hq : m.storage.spawnQ with
    | nil =>
      simp only [EntityManager.drainSpawns, hq]
      exact ⟨fun e he => Or.inl he, le_refl _⟩
    | cons r rest =>
      simp only [EntityManager.drainSpawns, hq]
      exact fresh_comp
        (runReq_fresh r { m with storage := { m.storage with spawnQ := rest } })
        (ih (runReq r { m with storage := { m.storage with spawnQ := rest } }))

theorem drainCollisions_entities (res : Resolver) : ∀ (fuel : ℕ) (m : EntityManager),
    (EntityManager.drainCollisions res fuel m).entities = m.entities ∧
    (EntityManager.drainCollisions res fuel m).tracker = m.tracker := by
  intro fuel
  induction fuel with
  | zero => intro m; exact ⟨rfl, rfl⟩
  | succ fuel ih =>
    intro m
    cases hq : m.storage.collQ with
    | nil =>
      simp only [EntityManager.drainCollisions, hq]
      exact ⟨trivial, trivial⟩
    | cons p rest =>
      obtain ⟨i1, i2⟩ := p
      simp only [EntityManager.drainCollisions, hq]
      cases ({ m with storage := { m.storage with collQ := rest } } : EntityManager).view i1 with
      | none => exact ih _
      | some v1 =>
        cases ({ m with storage := { m.storage with collQ := rest } } : EntityManager).view i2 with
        | none => exact ih _
        | some v2 => exact ih _

/-! ## Claim C5 -/

/-- C5: one tick call runs the five phases in source order (input drain,
per-entity dispatch over the pre-tick directory, kill drain, spawn drain,
collision drain); the directory the dispatch phase iterates over is exactly
the pre-tick one, every entity present after the tick but not before it
carries a fresh id at or above the pre-tick tracker, and no such fresh id is
in the pre-tick directory — so entities created by queued spawn requests are
never tick-dispatched within the call that created them. -/
theorem tick_phase_order_and_fresh (beh : Behavior) (res : Resolver) (dt sf cf : ℕ)
    (m : EntityManager) (hInv : Inv m) :
    (EntityManager.tick beh res dt sf cf m =
      EntityManager.drainCollisions res cf
        (EntityManager.drainSpawns sf
          (EntityManager.drainKills
            (EntityManager.dispatch beh dt
              (EntityManager.drainInput m))))) ∧
    ((EntityManager.drainInput m).entities = m.entities ∧
     (EntityManager.dispatch beh dt (EntityManager.drainInput m)).entities = m.entities) ∧
    (∀ e ∈ (EntityManager.tick beh res dt sf cf m).entities,
      e ∉ m.entities → m.tracker ≤ e) ∧
    (∀ e : ℕ, m.tracker ≤ e → e ∉ m.entities) := by
  refine ⟨rfl, ⟨rfl, rfl⟩, ?_, ?_⟩
  · intro e he hne
    have m2eq : (EntityManager.dispatch beh dt (EntityManager.drainInput m)).entities
        = m.entities := rfl
    have hA : (∀ x ∈ (EntityManager.dispatch beh dt
          (EntityManager.drainInput m)).drainKills.entities,
          x ∈ m.entities ∨ m.tracker ≤ x) ∧
        m.tracker ≤ (EntityManager.dispatch beh dt
          (EntityManager.drainInput m)).drainKills.tracker := by
      obtain ⟨hsub, htr⟩ := drainKills_subset (EntityManager.dispatch beh dt
        (EntityManager.drainInput m))
      exact ⟨fun x hx => Or.inl (hsub x hx), le_of_eq htr.symm⟩
    have hB := drainSpawns_fresh sf ((EntityManager.dispatch beh dt
      (EntityManager.drainInput m)).drainKills)
    have hAB := fresh_comp hA hB
    have hC : (∀ x ∈ (EntityManager.drainCollisions res cf
          (EntityManager.drainSpawns sf ((EntityManager.dispatch beh dt
            (EntityManager.drainInput m)).drainKills))).entities,
          x ∈ (EntityManager.drainSpawns sf ((EntityManager.dispatch beh dt
            (EntityManager.drainInput m)).drainKills)).entities ∨
          (EntityManager.drainSpawns sf ((EntityManager.dispatch beh dt
            (EntityManager.drainInput m)).drainKills)).tracker ≤ x) ∧
        (EntityManager.drainSpawns sf ((EntityManager.dispatch beh dt
            (EntityManager.drainInput m)).drainKills)).tracker ≤
          (EntityManager.drainCollisions res cf
            (EntityManager.drainSpawns sf ((EntityManager.dispatch beh dt
              (EntityManager.drainInput m)).drainKills))).tracker := by
      obtain ⟨hent, htr⟩ := drainCollisions_entities res cf
        (EntityManager.drainSpawns sf ((EntityManager.dispatch beh dt
          (EntityManager.drainInput m)).drainKills))
      exact ⟨fun x hx => Or.inl (hent ▸ hx), le_of_eq htr.symm⟩
    have hall := fresh_comp hAB hC
    rcases hall.1 e he with h | h
    · exact absurd h hne
    · exact h
  · intro e hle hmem
    have := hInv.2.1 e hmem
    omega

/-- Witness for tick_phase_order_and_fresh: the phase decomposition on a
fresh manager with no-op behaviors. -/
theorem tick_phase_order_and_fresh_witness :
    EntityManager.tick (fun _ _ _ st => st) (fun _ _ _ _ st => st) 1 1 1 EntityManager.new =
      EntityManager.drainCollisions (fun _ _ _ _ st => st) 1
        (EntityManager.drainSpawns 1
          (EntityManager.drainKills
            (EntityManager.dispatch (fun _ _ _ st => st) 1
              (EntityManager.drainInput EntityManager.new)))) :=
  (tick_phase_order_and_fresh (fun _ _ _ st => st) (fun _ _ _ _ st => st) 1 1 1
    EntityManager.new
    ⟨List.sorted_nil, fun e he => absurd he (List.not_mem_nil e), rfl⟩).1

/-! ## Claim C2 -/

/-- C2 fails on the code: the spawn drain is a while-try_recv loop, so a
request that sends a further request into the spawn channel has that nested
request received and executed by the same loop, within the same tick call.
Concretely, from a fresh manager whose spawn queue holds one request that
enqueues a plain spawn, a single tick call leaves the nested spawn already
executed (entity 0 exists) and the spawn queue empty — nothing is deferred
to the next tick. -/
theorem nested_spawn_same_tick_cex :
    (EntityManager.tick (fun _ _ _ st => st) (fun _ _ _ _ st => st) 1 2 0
      { EntityManager.new with storage :=
        { Storages.new with spawnQ := [Req.enqueue (Req.spawn Entities.Basic [])] } }).entities
      = [0] ∧
    (EntityManager.tick (fun _ _ _ st => st) (fun _ _ _ _ st => st) 1 2 0
      { EntityManager.new with storage :=
        { Storages.new with spawnQ := [Req.enqueue (Req.spawn Entities.Basic [])] } }).storage.spawnQ
      = [] := by
  exact ⟨rfl, rfl⟩

/-- C2 amended: a queued request that enqueues a further request has that
nested request drained in the same pass — after popping and running the
enqueueing request, the drain loop continues with the nested request itself
(two units of fuel cover the two loop iterations). -/
theorem nested_spawn_same_pass (r : Req) (fuel : ℕ) (m : EntityManager)
    (h : m.storage.spawnQ = [Req.enqueue r]) :
    EntityManager.drainSpawns (fuel + 2) m =
      EntityManager.drainSpawns fuel
        (runReq r { m with storage := { m.storage with spawnQ := [] } }) := by
  show EntityManager.drainSpawns (fuel + 1 + 1) m = _
  simp only [EntityManager.drainSpawns, h, runReq, List.nil_append]

/-- Witness for nested_spawn_same_pass at a concrete manager and request. -/
theorem nested_spawn_same_pass_witness :
    EntityManager.drainSpawns 2
      { EntityManager.new with storage :=
        { Storages.new with spawnQ := [Req.enqueue (Req.spawn Entities.Basic [])] } } =
    EntityManager.drainSpawns 0
      (runReq (Req.spawn Entities.Basic [])
        { ({ EntityManager.new with storage :=
            { Storages.new with spawnQ := [Req.enqueue (Req.spawn Entities.Basic [])] } }
            : EntityManager) with
          storage := { ({ Storages.new with
            spawnQ := [Req.enqueue (Req.spawn Entities.Basic [])] } : Storages) with
            spawnQ := [] } }) :=
  nested_spawn_same_pass (Req.spawn Entities.Basic []) 0
    { EntityManager.new with storage :=
      { Storages.new with spawnQ := [Req.enqueue (Req.spawn Entities.Basic [])] } }
    rfl

end Game
